import Mathlib

/-!
Verification development for the `codefinder` code-intelligence server.

Go strings and byte streams are modelled as `List Char` (the code only ever
inspects ASCII bytes, so a `Char`-level model is byte-faithful on every input
the claims quantify over).  Machine integers are modelled as `Nat`/`Int`; the
SHA-256 core works on `Nat` with explicit `% 2^32` reductions.  Fallible Go
functions returning `(T, error)` are modelled with `Except`/`Option`.
Loops whose iteration count is bounded by the input length are modelled with
an explicit fuel argument initialised to more than the input length, which is
extensionally the Go loop (each iteration consumes at least one input byte).
-/

namespace Codefinder

/-! ## Generic string helpers (models of Go `strings` functions, ASCII fragment) -/

/-- Characters treated as white space by `strings.TrimSpace` (ASCII fragment of
Unicode white space; every header byte the framing layer can see is ASCII). -/
def isSpaceChar (c : Char) : Bool :=
  c = ' ' || c = '\t' || c = '\n' || c = '\r' || c = '\x0b' || c = '\x0c'

/-- Drop leading white space. -/
def trimLeft : List Char → List Char
  | [] => []
  | c :: cs => if isSpaceChar c then trimLeft cs else c :: cs

/-- Drop trailing white space. -/
def trimRight (l : List Char) : List Char :=
  (trimLeft l.reverse).reverse

/-- Model of `strings.TrimSpace` on ASCII data. -/
def trimSpace (l : List Char) : List Char :=
  trimRight (trimLeft l)

/-- Model of `strings.HasPrefix`. -/
def hasPrefixM : List Char → List Char → Bool
  | [], _ => true
  | _ :: _, [] => false
  | p :: ps, s :: ss => p = s && hasPrefixM ps ss

/-- Model of `bufio.Reader.ReadString('\n')`: the returned line includes the
delimiter; `none` models the `io.EOF` error when no delimiter remains. -/
def readLine : List Char → Option (List Char × List Char)
  | [] => none
  | c :: cs =>
    if c = '\n' then some ([c], cs)
    else
      match readLine cs with
      | some (l, r) => some (c :: l, r)
      | none => none

/-- Model of `strings.SplitN(line, ": ", 2)` restricted to the found case:
`some (before, after)` splits at the first occurrence of `": "`; `none` means
the separator does not occur (Go then returns a one-element slice). -/
def splitOnceHdr : List Char → Option (List Char × List Char)
  | [] => none
  | [_] => none
  | a :: b :: rest =>
    if a = ':' && b = ' ' then some ([], rest)
    else
      match splitOnceHdr (b :: rest) with
      | some (k, v) => some (a :: k, v)
      | none => none

def isDigitChar (c : Char) : Bool := '0' ≤ c && c ≤ '9'

def digitVal (c : Char) : Option Nat :=
  if isDigitChar c then some (c.toNat - 48) else none

/-- Digit-accumulating core of `strconv.Atoi`. -/
def atoiCore : List Char → Nat → Option Nat
  | [], acc => some acc
  | c :: cs, acc =>
    match digitVal c with
    | some d => atoiCore cs (10 * acc + d)
    | none => none

/-- Model of `strconv.Atoi`: optional sign, then a non-empty digit string.
Go additionally fails on 64-bit overflow; lengths are modelled unbounded,
which agrees with Go on every stream a machine can hold. -/
def atoi (l : List Char) : Option Int :=
  match l with
  | [] => none
  | c :: ds =>
    if c = '+' then
      if ds = [] then none else (atoiCore ds 0).map Int.ofNat
    else if c = '-' then
      if ds = [] then none else (atoiCore ds 0).map (fun n => -(Int.ofNat n : Int))
    else (atoiCore (c :: ds) 0).map Int.ofNat

def digitChar (d : Nat) : Char := Char.ofNat (48 + d)

/-- Fuel-based decimal printer (core of `fmt.Sprintf("%d", n)` for `n ≥ 0`);
fuel `n + 1` always suffices since the argument shrinks by a factor of 10. -/
def natToCharsAux : Nat → Nat → List Char → List Char
  | 0, _, acc => acc
  | fuel + 1, n, acc =>
    if n < 10 then digitChar n :: acc
    else natToCharsAux fuel (n / 10) (digitChar (n % 10) :: acc)

/-- Decimal representation of a natural number, as written by `fmt.Sprintf("%d", _)`. -/
def natToChars (n : Nat) : List Char :=
  natToCharsAux (n + 1) n []

/-! ## LSP framing (`ReadMessage` / `WriteMessage`, src/unnamed/part_000) -/

/-- Header-reading loop of `ReadMessage` (part_000 lines 15–34).  The fuel
argument bounds the number of iterations; callers pass `stream.length + 1`,
which is always enough because every `ReadString('\n')` consumes at least one
byte.  The `0`-fuel branch is unreachable at that fuel. -/
def readHeaderLoop : Nat → List Char → Int → Except (List Char) (Int × List Char)
  | 0, _, _ => .error "out of fuel".data
  | fuel + 1, s, cl =>
    match readLine s with
    | none => .error "EOF".data
    | some (line, rest) =>
      let t := trimSpace line
      if t = [] then .ok (cl, rest)
      else
        match splitOnceHdr t with
        | some (k, v) =>
          if k = "Content-Length".data then
            match atoi v with
            | some n => readHeaderLoop fuel rest n
            | none => .error "invalid Content-Length".data
          else readHeaderLoop fuel rest cl
        | none => readHeaderLoop fuel rest cl

/-- Model of `ReadMessage` (part_000 lines 13–48): returns the body and the
unread remainder of the stream.  A negative `Content-Length` makes the Go code
panic at `make([]byte, n)`; that abnormal exit is modelled as an error. -/
def readMessage (s : List Char) : Except (List Char) (List Char × List Char) :=
  match readHeaderLoop (s.length + 1) s 0 with
  | .error e => .error e
  | .ok (cl, rest) =>
    if cl = 0 then .error "missing or zero Content-Length".data
    else if cl < 0 then .error "panic: makeslice: len out of range".data
    else if rest.length < cl.toNat then .error "failed to read body".data
    else .ok (rest.take cl.toNat, rest.drop cl.toNat)

/-- Model of `WriteMessage` (part_000 lines 51–65) applied to an already
serialized body: the bytes appended to the stream. -/
def writeMessage (body : List Char) : List Char :=
  "Content-Length: ".data ++ natToChars body.length ++ ('\r' :: '\n' :: '\r' :: '\n' :: []) ++ body

/-- `n` consecutive `ReadMessage` calls on the same stream, collecting bodies. -/
def readMessages : Nat → List Char → Except (List Char) (List (List Char))
  | 0, _ => .ok []
  | n + 1, s =>
    match readMessage s with
    | .error e => .error e
    | .ok (b, rest) =>
      match readMessages n rest with
      | .error e => .error e
      | .ok bs => .ok (b :: bs)

/-- JSON values, as serialized by `encoding/json` for the shapes the server
exchanges (numbers restricted to integers; `json.Marshal` never errors on
these, and its output is always non-empty). -/
inductive Json where
  | null : Json
  | bool (b : Bool) : Json
  | num (i : Int) : Json
  | str (s : List Char) : Json
  | arr (elems : List Json) : Json
  | obj (fields : List (List Char × Json)) : Json

def intToChars (i : Int) : List Char :=
  if i < 0 then '-' :: natToChars (-i).toNat else natToChars i.toNat

/-- JSON string escaping for the characters `encoding/json` always escapes in
the ASCII range (quotes and backslash; other code points pass through in the
fragment modelled here). -/
def jsonEscapeChar (c : Char) : List Char :=
  if c = '"' then ['\\', '"']
  else if c = '\\' then ['\\', '\\']
  else if c = '\n' then ['\\', 'n']
  else if c = '\r' then ['\\', 'r']
  else if c = '\t' then ['\\', 't']
  else [c]

mutual

/-- Model of `json.Marshal` on the `Json` fragment. -/
def jsonMarshal : Json → List Char
  | .null => "null".data
  | .bool true => "true".data
  | .bool false => "false".data
  | .num i => intToChars i
  | .str s => '"' :: (s.map jsonEscapeChar).flatten ++ ['"']
  | .arr es => '[' :: jsonMarshalList es ++ [']']
  | .obj fs => '\x7b' :: jsonMarshalFields fs ++ ['\x7d']

def jsonMarshalList : List Json → List Char
  | [] => []
  | [v] => jsonMarshal v
  | v :: vs => jsonMarshal v ++ ',' :: jsonMarshalList vs

def jsonMarshalFields : List (List Char × Json) → List Char
  | [] => []
  | [(k, v)] => '"' :: (k.map jsonEscapeChar).flatten ++ '"' :: ':' :: jsonMarshal v
  | (k, v) :: fs =>
    '"' :: (k.map jsonEscapeChar).flatten ++ '"' :: ':' :: jsonMarshal v ++ ',' :: jsonMarshalFields fs

end

/-- The `Content-Length` header line carrying the value `n` (without its
terminator), as `WriteMessage` produces it. -/
def clLine (n : Nat) : List Char :=
  "Content-Length: ".data ++ natToChars n

/-- A list of header lines, each terminated by CRLF. -/
def headerJoin (lines : List (List Char)) : List Char :=
  (lines.map (fun l => l ++ ['\r', '\n'])).flatten

/-- A complete header section: the lines followed by the blank-line terminator. -/
def headerSection (lines : List (List Char)) : List Char :=
  headerJoin lines ++ ['\r', '\n']

/-- Whether a header line is not a `Content-Length` assignment after trimming
(the reader's loop ignores such lines entirely). -/
def benignKey (l : List Char) : Bool :=
  match splitOnceHdr (trimSpace l) with
  | some (k, _) => k ≠ "Content-Length".data
  | none => true

/-- A header line that `ReadMessage` must tolerate and ignore: it contains no
line terminator, does not trim to the blank header terminator, and does not
assign `Content-Length`. -/
def BenignHeaderLine (l : List Char) : Prop :=
  '\n' ∉ l ∧ trimSpace l ≠ [] ∧ benignKey l = true

instance (l : List Char) : Decidable (BenignHeaderLine l) := by
  unfold BenignHeaderLine
  infer_instance

/-! ## Node IDs (`GenerateNodeID`, src/util/hash.go) -/

/-- Reduce to a 32-bit word (the Go code computes on `uint32`). -/
def u32 (n : Nat) : Nat := n % 4294967296

/-- 32-bit rotate right. -/
def rotr32 (k x : Nat) : Nat := u32 ((x >>> k) ||| (x <<< (32 - k)))

/-- SHA-256 round constants (decimal values of the standard table). -/
def K256 : List Nat :=
  [1116352408, 1899447441, 3049323471, 3921009573, 961987163, 1508970993,
   2453635748, 2870763221, 3624381080, 310598401, 607225278, 1426881987,
   1925078388, 2162078206, 2614888103, 3248222580, 3835390401, 4022224774,
   264347078, 604807628, 770255983, 1249150122, 1555081692, 1996064986,
   2554220882, 2821834349, 2952996808, 3210313671, 3336571891, 3584528711,
   113926993, 338241895, 666307205, 773529912, 1294757372, 1396182291,
   1695183700, 1986661051, 2177026350, 2456956037, 2730485921, 2820302411,
   3259730800, 3345764771, 3516065817, 3600352804, 4094571909, 275423344,
   430227734, 506948616, 659060556, 883997877, 958139571, 1322822218,
   1537002063, 1747873779, 1955562222, 2024104815, 2227730452, 2361852424,
   2428436474, 2756734187, 3204031479, 3329325298]

/-- SHA-256 initial hash state (decimal values of the standard table). -/
def initH256 : List Nat :=
  [1779033703, 3144134277, 1013904242, 2773480762,
   1359893119, 2600822924, 528734635, 1541459225]

/-- Big-endian 32-bit words from bytes. -/
def bytesToWords : List Nat → List Nat
  | b0 :: b1 :: b2 :: b3 :: rest =>
    (b0 * 16777216 + b1 * 65536 + b2 * 256 + b3) :: bytesToWords rest
  | _ => []

def ssig0 (x : Nat) : Nat := u32 (rotr32 7 x ^^^ rotr32 18 x ^^^ (x >>> 3))

def ssig1 (x : Nat) : Nat := u32 (rotr32 17 x ^^^ rotr32 19 x ^^^ (x >>> 10))

/-- Extend the 16 block words to the 64-word message schedule. -/
def extendW : Nat → List Nat → List Nat
  | 0, w => w
  | n + 1, w =>
    let t := u32 (ssig1 (w.getD (w.length - 2) 0) + w.getD (w.length - 7) 0 +
                  ssig0 (w.getD (w.length - 15) 0) + w.getD (w.length - 16) 0)
    extendW n (w ++ [t])

/-- One SHA-256 round applied to the 8-word working state. -/
def sha256Round (st : List Nat) (kw : Nat × Nat) : List Nat :=
  match st with
  | [a, b, c, d, e, f, g, h] =>
    let s1 := u32 (rotr32 6 e ^^^ rotr32 11 e ^^^ rotr32 25 e)
    let ch := (e &&& f) ^^^ ((4294967295 ^^^ e) &&& g)
    let t1 := u32 (h + s1 + ch + kw.1 + kw.2)
    let s0 := u32 (rotr32 2 a ^^^ rotr32 13 a ^^^ rotr32 22 a)
    let maj := (a &&& b) ^^^ (a &&& c) ^^^ (b &&& c)
    let t2 := u32 (s0 + maj)
    [u32 (t1 + t2), a, b, c, u32 (d + t1), e, f, g]
  | st => st

/-- Compression of one 64-byte block into the hash state. -/
def sha256Compress (hs : List Nat) (block : List Nat) : List Nat :=
  let w := extendW 48 (bytesToWords block)
  let st := (K256.zip w).foldl sha256Round hs
  (hs.zip st).map (fun p => u32 (p.1 + p.2))

/-- 64-bit big-endian byte encoding (for the padded bit length). -/
def be64 (n : Nat) : List Nat :=
  [56, 48, 40, 32, 24, 16, 8, 0].map (fun k => (n >>> k) % 256)

/-- SHA-256 padding: `0x80`, zeros to 56 mod 64, then the bit length. -/
def sha256Pad (msg : List Nat) : List Nat :=
  let L := msg.length
  let k := (64 - ((L + 9) % 64)) % 64
  msg ++ 128 :: List.replicate k 0 ++ be64 (8 * L)

/-- Split a byte list into 64-byte blocks. -/
def chunk64 : List Nat → List (List Nat)
  | [] => []
  | b :: rest => (b :: rest).take 64 :: chunk64 ((b :: rest).drop 64)
termination_by l => l.length
decreasing_by simp [List.length_drop]; omega

/-- SHA-256 of a byte string (model of `crypto/sha256.Sum256`). -/
def sha256Bytes (msg : List Nat) : List Nat :=
  let hs := (chunk64 (sha256Pad msg)).foldl sha256Compress initH256
  (hs.map (fun h => [(h >>> 24) % 256, (h >>> 16) % 256, (h >>> 8) % 256, h % 256])).flatten

/-- Lowercase hex digit (model of `encoding/hex`). -/
def hexDigitChar (d : Nat) : Char :=
  if d < 10 then Char.ofNat (48 + d) else Char.ofNat (87 + d)

/-- Model of `hex.EncodeToString`. -/
def hexEncode (bs : List Nat) : List Char :=
  (bs.map (fun b => [hexDigitChar (b / 16), hexDigitChar (b % 16)])).flatten

/-- UTF-8 encoding of one scalar value (Go `[]byte(string)` conversion). -/
def utf8EncodeChar (c : Char) : List Nat :=
  let n := c.toNat
  if n < 128 then [n]
  else if n < 2048 then [192 + n / 64, 128 + n % 64]
  else if n < 65536 then [224 + n / 4096, 128 + (n / 64) % 64, 128 + n % 64]
  else [240 + n / 262144, 128 + (n / 4096) % 64, 128 + (n / 64) % 64, 128 + n % 64]

def utf8Encode (s : List Char) : List Nat :=
  (s.map utf8EncodeChar).flatten

/-- The pre-hash input of `GenerateNodeID`: `fmt.Sprintf("%s:%s", filePath, symbolName)`
(hash.go line 11). -/
def hashInput (filePath symbolName : List Char) : List Char :=
  filePath ++ ':' :: symbolName

/-- Model of `GenerateNodeID` (hash.go lines 10–14). -/
def GenerateNodeID (filePath symbolName : List Char) : List Char :=
  hexEncode (sha256Bytes (utf8Encode (hashInput filePath symbolName)))

/-! ## Path/URI helpers (src/util/uri.go), non-Windows -/

/-- Split a character list at every occurrence of `sep` (the parts exclude the
separator; `n` separators yield `n + 1` parts). -/
def splitOnChar (sep : Char) : List Char → List (List Char)
  | [] => [[]]
  | c :: cs =>
    let r := splitOnChar sep cs
    if c = sep then [] :: r
    else
      match r with
      | [] => [[c]]
      | p :: ps => (c :: p) :: ps

/-- Model of `filepath.IsAbs` on non-Windows platforms. -/
def isAbsM (p : List Char) : Bool := hasPrefixM "/".data p

/-- Component-processing core of `filepath.Clean` (the documented rewriting
rules: drop empty and `.` elements; `..` erases the previous element except at
the root or at the head of a relative path). -/
def cleanComps (rooted : Bool) : List (List Char) → List (List Char) → List (List Char)
  | [], acc => acc
  | c :: rest, acc =>
    if c = [] || c = ".".data then cleanComps rooted rest acc
    else if c = "..".data then
      match acc.getLast? with
      | none => if rooted then cleanComps rooted rest acc else cleanComps rooted rest (acc ++ [c])
      | some lastc =>
        if lastc = "..".data then cleanComps rooted rest (acc ++ [c])
        else cleanComps rooted rest acc.dropLast
    else cleanComps rooted rest (acc ++ [c])

def joinWithChar (sep : Char) : List (List Char) → List Char
  | [] => []
  | [x] => x
  | x :: xs => x ++ sep :: joinWithChar sep xs

/-- Model of `filepath.Clean` for slash-separated (non-Windows) paths. -/
def cleanPath (p : List Char) : List Char :=
  if p = [] then ".".data
  else
    let rooted := isAbsM p
    let acc := cleanComps rooted (splitOnChar '/' p) []
    let out := (if rooted then ['/'] else []) ++ joinWithChar '/' acc
    if out = [] then ".".data else out

/-- Model of `filepath.Abs` on non-Windows: absolute paths are cleaned, relative
paths are joined onto the working directory (`Getwd` failure, the only error
source, is outside the model). -/
def absPath (cwd p : List Char) : List Char :=
  if isAbsM p then cleanPath p else cleanPath (cwd ++ '/' :: p)

/-- Model of `PathToURI` (uri.go lines 8–14); `convertToSlash` is the identity
on non-Windows platforms. -/
def pathToURIM (cwd p : List Char) : List Char :=
  "file://".data ++ absPath cwd p

/-- Model of `URIToPath` (uri.go lines 16–21); `convertFromSlash` is the
identity on non-Windows platforms. -/
def uriToPathM (u : List Char) : List Char :=
  if hasPrefixM "file://".data u then u.drop 7 else u

/-! ## `readSource` (src/unnamed/part_002 lines 269–299) -/

/-- Drop a single trailing `'\r'` (the `dropCR` step of `bufio.ScanLines`). -/
def dropCR (l : List Char) : List Char :=
  if l.getLast? = some '\r' then l.dropLast else l

/-- `bufio.MaxScanTokenSize` (64 KiB), the default cap on a `bufio.Scanner`
token.  A `Scan` call whose raw segment (the bytes before the next `'\n'`,
CR included, or the final unterminated fragment) reaches this size cannot fit
in the scanner's buffer together with its delimiter and fails with
`bufio.ErrTooLong`. -/
def maxScanTokenSize : Nat := 65536

/-- The raw newline-delimited segments the scanner works through, in order:
each segment is the bytes before a `'\n'` (CR still attached), plus the final
unterminated fragment when there is one (an empty final fragment yields no
token — `Scan` just reports end of input). -/
def rawLines (s : List Char) : List (List Char) :=
  let ps := splitOnChar '\n' s
  if ps.getLast? = some [] then ps.dropLast else ps

/-- The token list produced when every raw segment is under the scanner's
limit: each segment with one trailing `'\r'` stripped.  Used to state line
counts; the limit itself is enforced per scanned segment in
`readSourceLoopE`. -/
def scanLinesM (s : List Char) : List (List Char) :=
  (rawLines s).map dropCR

/-- The scan loop of `readSource` (part_002 lines 277–296).  Each iteration is
one `scanner.Scan()` on the next raw segment: a segment at or over
`maxScanTokenSize` makes `Scan` fail with `bufio.ErrTooLong`, which the
`scanner.Err()` check (lines 294–296) turns into an error return; otherwise
the CR-stripped token is appended (`'\n'`-separated) when `currentLine` lies
in `[lineStart, lineEnd]`, and the loop breaks one line after the range ends
— so the segment at `lineEnd + 1`, when present, is still scanned and still
subject to the limit. -/
def readSourceLoopE :
    List (List Char) → Int → Int → Int → Bool → List Char → Except (List Char) (List Char)
  | [], _, _, _, _, acc => .ok acc
  | line :: rest, cur, ls, le, first, acc =>
    if maxScanTokenSize ≤ line.length then .error "bufio.Scanner: token too long".data
    else
      let tok := dropCR line
      let inRange := ls ≤ cur && cur ≤ le
      let acc2 := if inRange then acc ++ (if first then [] else ['\n']) ++ tok else acc
      let first2 := if inRange then false else first
      if le < cur then .ok acc2
      else readSourceLoopE rest (cur + 1) ls le first2 acc2

/-- Limit-free core of the scan loop over already-stripped tokens; the loop of
the program is `readSourceLoopE`, which agrees with this whenever no scanned
segment reaches the limit (`readSourceLoopE_ok`). -/
def readSourceLoop : List (List Char) → Int → Int → Int → Bool → List Char → List Char
  | [], _, _, _, _, acc => acc
  | line :: rest, cur, ls, le, first, acc =>
    let inRange := ls ≤ cur && cur ≤ le
    let acc2 := if inRange then acc ++ (if first then [] else ['\n']) ++ line else acc
    let first2 := if inRange then false else first
    if le < cur then acc2
    else readSourceLoop rest (cur + 1) ls le first2 acc2

/-- Model of `readSource` applied to the file's content: the built string, or
the scanner error surfaced by the `scanner.Err()` check. -/
def readSourceM (content : List Char) (lineStart lineEnd : Int) :
    Except (List Char) (List Char) :=
  readSourceLoopE (rawLines content) 1 lineStart lineEnd true []

/-- `'\n'`-prefixed concatenation of lines (helper for substring reasoning). -/
def prefJoinNL (ls : List (List Char)) : List Char :=
  (ls.map ('\n' :: ·)).flatten

/-- Join lines with single `'\n'` separators. -/
def joinLinesNL : List (List Char) → List Char
  | [] => []
  | l :: ls => l ++ prefJoinNL ls

/-- The spec's words for S6: the exact substring of the file from line `a` to
line `b` inclusive, preserving the internal newlines (1-based lines; the
trailing newline of line `b` is not part of the inclusive line range). -/
def sourceSlice (content : List Char) (a b : Nat) : List Char :=
  joinLinesNL (((splitOnChar '\n' content).drop (a - 1)).take (b - a + 1))

/-! ## Index status and the `index` tool (src/unnamed/part_002 lines 38–107) -/

/-- The status vocabulary `IndexStatus{Idle,InProgress,Ready,Failed}`. -/
inductive IndexStatusM where
  | idle
  | inProgress
  | ready
  | failed
deriving DecidableEq, Repr

/-- Interleaving state for two concurrent `index` tool calls.  Each thread runs
the handler prologue: program counter 0 = about to read `s.indexStatus` under
`RLock` (lines 46–48); 1 = about to test the observed status (line 50);
2 = about to run `setIndexStatus(InProgress)` (line 62); 3 = about to perform
the first store mutation `BulkUpsertNodes` (line 81); 4 = finished.  Each
numbered step is atomic (each is individually lock-protected in the code; the
race is between steps, not inside them). -/
structure RaceState where
  status : IndexStatusM
  mutated : List Nat
  rejected : List Nat
  pc0 : Nat
  obs0 : IndexStatusM
  pc1 : Nat
  obs1 : IndexStatusM
deriving DecidableEq, Repr

def initRace : RaceState :=
  { status := .idle, mutated := [], rejected := [], pc0 := 0, obs0 := .idle, pc1 := 0, obs1 := .idle }

/-- One atomic step of thread `t` (`false` = thread 0, `true` = thread 1). -/
def stepRace (s : RaceState) (t : Bool) : RaceState :=
  let pc := if t then s.pc1 else s.pc0
  let obs := if t then s.obs1 else s.obs0
  let tid := if t then 1 else 0
  match pc with
  | 0 =>
    if t then { s with obs1 := s.status, pc1 := 1 }
    else { s with obs0 := s.status, pc0 := 1 }
  | 1 =>
    if obs = .inProgress then
      if t then { s with rejected := s.rejected ++ [tid], pc1 := 4 }
      else { s with rejected := s.rejected ++ [tid], pc0 := 4 }
    else
      if t then { s with pc1 := 2 } else { s with pc0 := 2 }
  | 2 =>
    if t then { s with status := .inProgress, pc1 := 3 }
    else { s with status := .inProgress, pc0 := 3 }
  | 3 =>
    if t then { s with mutated := s.mutated ++ [tid], pc1 := 4 }
    else { s with mutated := s.mutated ++ [tid], pc0 := 4 }
  | _ => s

/-- Run a schedule (an interleaving of the two threads' steps). -/
def runRace (sched : List Bool) : RaceState :=
  sched.foldl stepRace initRace

/-! ## Query-tool readiness prologue (src/unnamed/part_002 lines 134–147,
176–188, 221–233) -/

/-- Process-local index state seen by the query tools. -/
structure ServerIndexState where
  status : IndexStatusM
  lastErr : Option (List Char)
  readyLatched : Bool

/-- The `30*time.Second` readiness budget each query tool passes to
`context.WithTimeout` (part_002 lines 136, 177, 222). -/
def queryWaitTimeoutSeconds : Nat := 30

/-- Modelled from the spec: `WaitForIndex` is declared only by its callers in
src/.  Per §3 "Readiness signal" and §4.7, it blocks on the one-shot readiness
latch and returns without error iff the latch is set before the caller's
timeout expires; `readyLatched` records whether that happened within the
budget. -/
def waitForIndexM (st : ServerIndexState) : Bool := st.readyLatched

/-- The common prologue of the three query-tool handlers (`getIndexStatus` is
modelled from the spec as returning the stored status and last error). -/
def queryToolPrologue (st : ServerIndexState) : Option (List Char) :=
  if waitForIndexM st then none
  else
    match st.lastErr with
    | some e => some ("Indexing failed: ".data ++ e)
    | none =>
      if st.status = .inProgress then some "Indexing in progress, please try again".data
      else some "Indexing wait failed: context deadline exceeded".data

/-- Outcome of a query-tool call: an early error reply, or a store query. -/
inductive QueryToolResult where
  | earlyError (msg : List Char) : QueryToolResult
  | storeQuery : QueryToolResult
deriving DecidableEq, Repr

def getSymbolsInFileTool (st : ServerIndexState) : QueryToolResult :=
  match queryToolPrologue st with
  | some m => .earlyError m
  | none => .storeQuery

def findImpactTool (st : ServerIndexState) : QueryToolResult :=
  match queryToolPrologue st with
  | some m => .earlyError m
  | none => .storeQuery

def getSymbolTool (st : ServerIndexState) : QueryToolResult :=
  match queryToolPrologue st with
  | some m => .earlyError m
  | none => .storeQuery

/-! ## The `index` pipeline outcome (src/unnamed/part_002 lines 62–106) -/

/-- Outcomes of the collaborator calls the `index` handler makes, in pipeline
order.  Nodes and edges are represented by the fields the handler itself
reads (it only measures their lengths and collects node file paths). -/
structure PipelineEnv where
  scanRes : Except (List Char) (List (List Char))
  upsertNodesRes : Except (List Char) Unit
  pruneRes : Except (List Char) Unit
  enrichRes : Except (List Char) (List (List Char × List Char))
  upsertEdgesRes : Except (List Char) Unit
  durationStr : List Char

/-- The success reply `"Indexed %d nodes and %d edges in %.2fs"` (line 105);
the formatted duration is an opaque input since wall-clock time is not
modelled. -/
def indexSummary (n m : Nat) (dur : List Char) : List Char :=
  "Indexed ".data ++ natToChars n ++ " nodes and ".data ++ natToChars m ++
    " edges in ".data ++ dur ++ "s".data

/-- The `index` handler body after the in-progress check: final status, reply
text, and stderr warnings.  Mirrors lines 62–106: scan, node upsert, prune
(error only logged, line 87–90), enrich, edge upsert. -/
def indexToolRun (env : PipelineEnv) : IndexStatusM × List Char × List (List Char) :=
  match env.scanRes with
  | .error e => (.failed, "Scan failed: ".data ++ e, [])
  | .ok nodes =>
    match env.upsertNodesRes with
    | .error e => (.failed, "Failed to store nodes: ".data ++ e, [])
    | .ok _ =>
      let warnings :=
        match env.pruneRes with
        | .error e => ["Warning: Failed to prune stale files: ".data ++ e]
        | .ok _ => []
      match env.enrichRes with
      | .error e => (.failed, "Enrich failed: ".data ++ e, warnings)
      | .ok edges =>
        match env.upsertEdgesRes with
        | .error e => (.failed, "Failed to store edges: ".data ++ e, warnings)
        | .ok _ => (.ready, indexSummary nodes.length edges.length env.durationStr, warnings)

/-! ## Installer download retry (src/unnamed/part_004 lines 170–221) -/

/-- What one download attempt does.  `failure` covers the four `continue`
paths (request construction, `client.Do`, non-200 status, body copy); a
`dest.Seek` error returns immediately without retrying. -/
inductive AttemptOutcome where
  | success
  | failure (e : List Char)
  | seekFailure (e : List Char)
deriving DecidableEq, Repr

inductive DownloadResult where
  | ok
  | ctxCanceled
  | seekErr (e : List Char)
  | failedAfter (attempts : Nat) (lastErr : List Char)
deriving DecidableEq, Repr

/-- `const maxRetries = 3` (part_004 line 172). -/
def maxRetries : Nat := 3

/-- The retry loop of `downloadFile`: returns the completed backoff sleeps as
`(attempt, seconds)` pairs and the result.  Before every attempt after the
first the loop sleeps `attempt * attempt` seconds unless the context is
cancelled during the backoff, in which case `ctx.Err()` is returned at once
(lines 175–184). -/
def downloadLoop (outcome : Nat → AttemptOutcome) (canceledDuringBackoff : Nat → Bool) :
    Nat → Nat → Option (List Char) → List (Nat × Nat) × DownloadResult
  | 0, _, lastErr => ([], .failedAfter maxRetries (lastErr.getD []))
  | rem + 1, attempt, _lastErr =>
    if attempt > 1 && canceledDuringBackoff attempt then ([], .ctxCanceled)
    else
      let sleeps := if attempt > 1 then [(attempt, attempt * attempt)] else []
      match outcome attempt with
      | .success => (sleeps, .ok)
      | .seekFailure e => (sleeps, .seekErr e)
      | .failure e =>
        let r := downloadLoop outcome canceledDuringBackoff rem (attempt + 1) (some e)
        (sleeps ++ r.1, r.2)

/-- Model of `downloadFile` (part_004 lines 171–221). -/
def downloadFileRun (outcome : Nat → AttemptOutcome) (canceled : Nat → Bool) :
    List (Nat × Nat) × DownloadResult :=
  downloadLoop outcome canceled maxRetries 1 none

/-! ## LSP server metadata (src/internal/downloader/metadata.go) -/

/-- Version resolvers configured in the metadata table (their HTTP behaviour
is external; only their identity is modelled). -/
inductive VersionResolverM where
  | github (owner repo tagPrefix : List Char)
  | npm (packageName : List Char)
deriving DecidableEq, Repr

/-- Model of `LSPServerMetadata` (metadata.go lines 12–21).  Go maps are
modelled as association lists in source order. -/
structure LSPServerMetadataM where
  name : List Char
  version : List Char
  binaryName : List Char
  downloadURLs : List (List Char × List Char)
  checksums : List (List Char × List Char)
  isArchive : Bool
  archivePath : List Char
  versionResolver : Option VersionResolverM
deriving DecidableEq, Repr

/-- First-match association-list lookup (Go map indexing by string key). -/
def lookupStr {β : Type} (k : List Char) : List (List Char × β) → Option β
  | [] => none
  | (k2, v) :: rest => if k2 = k then some v else lookupStr k rest

def goMetadataM : LSPServerMetadataM :=
  { name := "gopls".data
    version := "v0.21.1".data
    binaryName := "gopls".data
    downloadURLs :=
      [("linux-amd64".data, "https://github.com/golang/tools/releases/download/gopls/{version}/gopls-{version}-linux-amd64.tar.gz".data),
       ("linux-arm64".data, "https://github.com/golang/tools/releases/download/gopls/{version}/gopls-{version}-linux-arm64.tar.gz".data),
       ("darwin-amd64".data, "https://github.com/golang/tools/releases/download/gopls/{version}/gopls-{version}-darwin-amd64.tar.gz".data),
       ("darwin-arm64".data, "https://github.com/golang/tools/releases/download/gopls/{version}/gopls-{version}-darwin-arm64.tar.gz".data),
       ("windows-amd64".data, "https://github.com/golang/tools/releases/download/gopls/{version}/gopls-{version}-windows-amd64.zip".data)]
    checksums :=
      [("linux-amd64".data, "".data), ("linux-arm64".data, "".data),
       ("darwin-amd64".data, "".data), ("darwin-arm64".data, "".data),
       ("windows-amd64".data, "".data)]
    isArchive := true
    archivePath := "gopls".data
    versionResolver := some (.github "golang".data "tools".data "".data) }

def pythonMetadataM : LSPServerMetadataM :=
  { name := "pyright".data
    version := "1.1.408".data
    binaryName := "pyright-langserver".data
    downloadURLs :=
      [("linux-amd64".data, "https://registry.npmjs.org/pyright/-/pyright-{version}.tgz".data),
       ("linux-arm64".data, "https://registry.npmjs.org/pyright/-/pyright-{version}.tgz".data),
       ("darwin-amd64".data, "https://registry.npmjs.org/pyright/-/pyright-{version}.tgz".data),
       ("darwin-arm64".data, "https://registry.npmjs.org/pyright/-/pyright-{version}.tgz".data),
       ("windows-amd64".data, "https://registry.npmjs.org/pyright/-/pyright-{version}.tgz".data)]
    checksums :=
      [("linux-amd64".data, "".data), ("linux-arm64".data, "".data),
       ("darwin-amd64".data, "".data), ("darwin-arm64".data, "".data),
       ("windows-amd64".data, "".data)]
    isArchive := true
    archivePath := "package/langserver.index.js".data
    versionResolver := some (.npm "pyright".data) }

def typescriptMetadataM : LSPServerMetadataM :=
  { name := "typescript-language-server".data
    version := "5.1.3".data
    binaryName := "typescript-language-server".data
    downloadURLs :=
      [("linux-amd64".data, "https://registry.npmjs.org/typescript-language-server/-/typescript-language-server-{version}.tgz".data),
       ("linux-arm64".data, "https://registry.npmjs.org/typescript-language-server/-/typescript-language-server-{version}.tgz".data),
       ("darwin-amd64".data, "https://registry.npmjs.org/typescript-language-server/-/typescript-language-server-{version}.tgz".data),
       ("darwin-arm64".data, "https://registry.npmjs.org/typescript-language-server/-/typescript-language-server-{version}.tgz".data),
       ("windows-amd64".data, "https://registry.npmjs.org/typescript-language-server/-/typescript-language-server-{version}.tgz".data)]
    checksums :=
      [("linux-amd64".data, "".data), ("linux-arm64".data, "".data),
       ("darwin-amd64".data, "".data), ("darwin-arm64".data, "".data),
       ("windows-amd64".data, "".data)]
    isArchive := true
    archivePath := "package/lib/cli.mjs".data
    versionResolver := some (.npm "typescript-language-server".data) }

def luaMetadataM : LSPServerMetadataM :=
  { name := "lua-language-server".data
    version := "3.17.1".data
    binaryName := "lua-language-server".data
    downloadURLs :=
      [("linux-amd64".data, "https://github.com/LuaLS/lua-language-server/releases/download/{version}/lua-language-server-{version}-linux-x64.tar.gz".data),
       ("linux-arm64".data, "https://github.com/LuaLS/lua-language-server/releases/download/{version}/lua-language-server-{version}-linux-arm64.tar.gz".data),
       ("darwin-amd64".data, "https://github.com/LuaLS/lua-language-server/releases/download/{version}/lua-language-server-{version}-darwin-x64.tar.gz".data),
       ("darwin-arm64".data, "https://github.com/LuaLS/lua-language-server/releases/download/{version}/lua-language-server-{version}-darwin-arm64.tar.gz".data),
       ("windows-amd64".data, "https://github.com/LuaLS/lua-language-server/releases/download/{version}/lua-language-server-{version}-win32-x64.zip".data)]
    checksums :=
      [("linux-amd64".data, "".data), ("linux-arm64".data, "".data),
       ("darwin-amd64".data, "".data), ("darwin-arm64".data, "".data),
       ("windows-amd64".data, "".data)]
    isArchive := true
    archivePath := "bin/lua-language-server".data
    versionResolver := some (.github "LuaLS".data "lua-language-server".data "".data) }

def zigMetadataM : LSPServerMetadataM :=
  { name := "zls".data
    version := "0.15.1".data
    binaryName := "zls".data
    downloadURLs :=
      [("linux-amd64".data, "https://github.com/zigtools/zls/releases/download/{version}/zls-linux-x86_64-{version}.tar.gz".data),
       ("linux-arm64".data, "https://github.com/zigtools/zls/releases/download/{version}/zls-linux-aarch64-{version}.tar.gz".data),
       ("darwin-amd64".data, "https://github.com/zigtools/zls/releases/download/{version}/zls-macos-x86_64-{version}.tar.gz".data),
       ("darwin-arm64".data, "https://github.com/zigtools/zls/releases/download/{version}/zls-macos-aarch64-{version}.tar.gz".data),
       ("windows-amd64".data, "https://github.com/zigtools/zls/releases/download/{version}/zls-windows-x86_64-{version}.zip".data)]
    checksums :=
      [("linux-amd64".data, "".data), ("linux-arm64".data, "".data),
       ("darwin-amd64".data, "".data), ("darwin-arm64".data, "".data),
       ("windows-amd64".data, "".data)]
    isArchive := true
    archivePath := "zls".data
    versionResolver := some (.github "zigtools".data "zls".data "".data) }

/-- The shipped metadata table `lspMetadata` (metadata.go lines 70–181),
entries in source order. -/
def lspMetadataM : List (List Char × LSPServerMetadataM) :=
  [("go".data, goMetadataM),
   ("python".data, pythonMetadataM),
   ("typescript".data, typescriptMetadataM),
   ("lua".data, luaMetadataM),
   ("zig".data, zigMetadataM)]

/-- `metadata.Checksums[platform]` with Go's zero value `""` for missing keys.
`GetLSPMetadata` copies the `Checksums` map into the resolved clone verbatim
(metadata.go line 37), so this is the value both `downloadAndInstall`
(part_004 line 145) and `Install` (part_002 pkgmgr, line 371) test. -/
def checksumFor (m : LSPServerMetadataM) (platform : List Char) : List Char :=
  (lookupStr platform m.checksums).getD []

/-- The guard `if checksum := metadata.Checksums[platform]; checksum != "" `:
`true` iff `verifyChecksum` is invoked during the install. -/
def checksumVerificationRuns (m : LSPServerMetadataM) (platform : List Char) : Bool :=
  checksumFor m platform ≠ []

/-! ## Helper lemmas -/

theorem digitChar_isDigit {d : Nat} (h : d < 10) : isDigitChar (digitChar d) = true := by
  interval_cases d <;> decide

theorem digitVal_digitChar {d : Nat} (h : d < 10) : digitVal (digitChar d) = some d := by
  interval_cases d <;> decide

theorem natToCharsAux_digits {fuel n : Nat} {acc : List Char}
    (hacc : ∀ c ∈ acc, isDigitChar c = true) :
    ∀ c ∈ natToCharsAux fuel n acc, isDigitChar c = true := by
  induction fuel generalizing n acc with
  | zero => exact hacc
  | succ fuel ih =>
    intro c hc
    unfold natToCharsAux at hc
    by_cases hlt : n < 10
    · simp only [hlt, if_true] at hc
      rcases List.mem_cons.mp hc with rfl | hmem
      · exact digitChar_isDigit hlt
      · exact hacc c hmem
    · simp only [hlt, if_false] at hc
      refine ih ?_ c hc
      intro c2 hc2
      rcases List.mem_cons.mp hc2 with rfl | hmem
      · exact digitChar_isDigit (Nat.mod_lt _ (by omega))
      · exact hacc c2 hmem

theorem natToChars_digits {n : Nat} : ∀ c ∈ natToChars n, isDigitChar c = true :=
  natToCharsAux_digits (by simp)

theorem natToCharsAux_ne_nil {fuel n : Nat} {acc : List Char}
    (h : 0 < fuel ∨ acc ≠ []) : natToCharsAux fuel n acc ≠ [] := by
  induction fuel generalizing n acc with
  | zero =>
    rcases h with h | h
    · omega
    · exact h
  | succ fuel ih =>
    unfold natToCharsAux
    by_cases hlt : n < 10
    · simp [hlt]
    · simp only [hlt, if_false]
      exact ih (Or.inr (by simp))

theorem natToChars_ne_nil (n : Nat) : natToChars n ≠ [] :=
  natToCharsAux_ne_nil (Or.inl (by omega))

theorem natToCharsAux_spec {n : Nat} : ∀ {fuel acc}, n < fuel →
    natToCharsAux fuel n acc = natToChars n ++ acc := by
  induction n using Nat.strong_induction_on with
  | _ n ih =>
    intro fuel acc hfuel
    match fuel, hfuel with
    | fuel + 1, _ =>
      by_cases hlt : n < 10
      · simp [natToCharsAux, natToChars, hlt]
      · have hdiv : n / 10 < n := Nat.div_lt_self (by omega) (by omega)
        have h1 : natToCharsAux (fuel + 1) n acc
            = natToCharsAux fuel (n / 10) (digitChar (n % 10) :: acc) := by
          simp [natToCharsAux, hlt]
        have h2 : natToChars n
            = natToCharsAux n (n / 10) (digitChar (n % 10) :: []) := by
          simp [natToChars, natToCharsAux, hlt]
        rw [h1, h2, ih _ hdiv (by omega), ih _ hdiv (by omega)]
        simp

theorem natToChars_step {n : Nat} (h : ¬ n < 10) :
    natToChars n = natToChars (n / 10) ++ [digitChar (n % 10)] := by
  have h2 : natToChars n = natToCharsAux n (n / 10) (digitChar (n % 10) :: []) := by
    simp [natToChars, natToCharsAux, h]
  rw [h2, natToCharsAux_spec (Nat.div_lt_self (by omega) (by omega))]

theorem atoiCore_append (xs ys : List Char) (a : Nat) :
    atoiCore (xs ++ ys) a =
      match atoiCore xs a with
      | some b => atoiCore ys b
      | none => none := by
  induction xs generalizing a with
  | nil => rfl
  | cons c cs ih =>
    simp only [List.cons_append, atoiCore]
    cases digitVal c with
    | none => rfl
    | some d => exact ih _

theorem atoiCore_natToChars (n : Nat) :
    ∀ acc, atoiCore (natToChars n) acc = some (acc * 10 ^ (natToChars n).length + n) := by
  induction n using Nat.strong_induction_on with
  | _ n ih =>
    intro acc
    by_cases hlt : n < 10
    · have h1 : natToChars n = [digitChar n] := by simp [natToChars, natToCharsAux, hlt]
      rw [h1]
      simp [atoiCore, digitVal_digitChar hlt]
      omega
    · have hdiv : n / 10 < n := Nat.div_lt_self (by omega) (by omega)
      rw [natToChars_step hlt, atoiCore_append, ih _ hdiv]
      simp only [atoiCore, digitVal_digitChar (Nat.mod_lt _ (by omega : (0:Nat) < 10))]
      have hn : 10 * (n / 10) + n % 10 = n := by omega
      congr 1
      rw [List.length_append, List.length_singleton, pow_succ]
      ring_nf
      omega

theorem digit_not_special {c : Char} (h : isDigitChar c = true) :
    c ≠ '+' ∧ c ≠ '-' ∧ isSpaceChar c = false ∧ c ≠ '\n' := by
  refine ⟨?_, ?_, ?_, ?_⟩
  · rintro rfl; exact absurd h (by decide)
  · rintro rfl; exact absurd h (by decide)
  · by_cases hs : isSpaceChar c = true
    · exfalso
      simp only [isSpaceChar, Bool.or_eq_true, decide_eq_true_eq] at hs
      rcases hs with ((((rfl | rfl) | rfl) | rfl) | rfl) | rfl <;> exact absurd h (by decide)
    · simpa using hs
  · rintro rfl; exact absurd h (by decide)

theorem atoi_natToChars (n : Nat) : atoi (natToChars n) = some (Int.ofNat n) := by
  obtain ⟨c, ds, hcd⟩ : ∃ c ds, natToChars n = c :: ds := by
    cases h : natToChars n with
    | nil => exact absurd h (natToChars_ne_nil n)
    | cons c ds => exact ⟨c, ds, rfl⟩
  have hdig : isDigitChar c = true := by
    refine natToChars_digits (n := n) c ?_
    rw [hcd]
    exact List.mem_cons_self c ds
  obtain ⟨hp, hm, -, -⟩ := digit_not_special hdig
  have hval := atoiCore_natToChars n 0
  rw [hcd] at hval
  rw [hcd]
  simp only [atoi, hp, hm, if_false, hval]
  simp

theorem hasPrefixM_append (l s : List Char) : hasPrefixM l (l ++ s) = true := by
  induction l with
  | nil => rfl
  | cons c cs ih => simp [hasPrefixM, ih]

theorem readLine_append {l : List Char} (r : List Char) (h : '\n' ∉ l) :
    readLine (l ++ '\n' :: r) = some (l ++ ['\n'], r) := by
  induction l with
  | nil => rfl
  | cons c cs ih =>
    have hc : c ≠ '\n' := fun hc => h (hc ▸ List.mem_cons_self c cs)
    have hcs : '\n' ∉ cs := fun hm => h (List.mem_cons_of_mem c hm)
    simp [readLine, hc, ih hcs]

theorem trimLeft_cons_nonspace {c : Char} (l : List Char) (h : isSpaceChar c = false) :
    trimLeft (c :: l) = c :: l := by
  simp [trimLeft, h]

theorem trimLeft_append (a b : List Char) :
    trimLeft (a ++ b) = if trimLeft a = [] then trimLeft b else trimLeft a ++ b := by
  induction a with
  | nil => simp [trimLeft]
  | cons c cs ih =>
    by_cases hc : isSpaceChar c = true
    · simp [trimLeft, hc, ih]
    · simp [trimLeft, hc]

theorem trimRight_append_crlf (x : List Char) :
    trimRight (x ++ ['\r', '\n']) = trimRight x := by
  simp [trimRight, List.reverse_append, trimLeft, isSpaceChar]

theorem trimSpace_append_crlf (l : List Char) :
    trimSpace (l ++ ['\r', '\n']) = trimSpace l := by
  unfold trimSpace
  rw [trimLeft_append]
  by_cases h : trimLeft l = []
  · simp [h, trimLeft, isSpaceChar, trimRight]
  · simp only [h, if_false]
    exact trimRight_append_crlf _

theorem trimRight_concat_nonspace {d : Char} (x : List Char) (h : isSpaceChar d = false) :
    trimRight (x ++ [d]) = x ++ [d] := by
  unfold trimRight
  rw [List.reverse_append]
  simp only [List.reverse_singleton, List.singleton_append]
  rw [trimLeft_cons_nonspace _ h]
  simp

theorem clLine_cons (n : Nat) :
    clLine n = 'C' :: ("ontent-Length: ".data ++ natToChars n) := rfl

theorem trimSpace_clLine (n : Nat) : trimSpace (clLine n) = clLine n := by
  obtain ⟨ys, d, hyd⟩ :=
    (List.eq_nil_or_concat (natToChars n)).resolve_left (natToChars_ne_nil n)
  have hd : isDigitChar d = true := by
    refine natToChars_digits (n := n) d ?_
    rw [hyd]; simp
  have hdns : isSpaceChar d = false := (digit_not_special hd).2.2.1
  have h1 : trimLeft (clLine n) = clLine n := by
    rw [clLine_cons]
    exact trimLeft_cons_nonspace _ (by decide)
  have h2 : clLine n = ("Content-Length: ".data ++ ys) ++ [d] := by
    rw [clLine, hyd]
    simp [List.concat_eq_append, List.append_assoc]
  unfold trimSpace
  rw [h1, h2, trimRight_concat_nonspace _ hdns]

theorem splitOnceHdr_clPrefix (v : List Char) :
    splitOnceHdr ("Content-Length: ".data ++ v) = some ("Content-Length".data, v) := rfl

theorem newline_not_mem_clLine (n : Nat) : '\n' ∉ clLine n := by
  intro hmem
  rcases List.mem_append.mp hmem with hm | hm
  · exact absurd hm (by decide)
  · exact (digit_not_special (natToChars_digits _ hm)).2.2.2 rfl

theorem readHeaderLoop_crlf (f : Nat) (s : List Char) (cl : Int) :
    readHeaderLoop (f + 1) ('\r' :: '\n' :: s) cl = .ok (cl, s) := rfl

theorem readLine_line_crlf {l : List Char} (s : List Char) (h : '\n' ∉ l) :
    readLine (l ++ '\r' :: '\n' :: s) = some (l ++ ['\r', '\n'], s) := by
  have h2 : l ++ '\r' :: '\n' :: s = (l ++ ['\r']) ++ '\n' :: s := by simp
  have h3 : '\n' ∉ l ++ ['\r'] := by
    intro hm
    rcases List.mem_append.mp hm with hm | hm
    · exact h hm
    · simp at hm
  rw [h2, readLine_append s h3]
  simp

theorem readHeaderLoop_benign {l : List Char} (hb : BenignHeaderLine l)
    (f : Nat) (s : List Char) (cl : Int) :
    readHeaderLoop (f + 1) (l ++ '\r' :: '\n' :: s) cl = readHeaderLoop f s cl := by
  obtain ⟨hnl, hts, hkey⟩ := hb
  simp only [readHeaderLoop, readLine_line_crlf s hnl]
  rw [show l ++ ['\r', '\n'] = l ++ ['\r', '\n'] from rfl]
  have htr : trimSpace (l ++ ['\r', '\n']) = trimSpace l := trimSpace_append_crlf l
  simp only [htr, hts, if_false]
  cases heq : splitOnceHdr (trimSpace l) with
  | none => rfl
  | some kv =>
    obtain ⟨k, v⟩ := kv
    have hk : k ≠ "Content-Length".data := by
      unfold benignKey at hkey
      rw [heq] at hkey
      simpa using hkey
    simp [hk]

theorem readHeaderLoop_clLine (n : Nat) (f : Nat) (s : List Char) (cl : Int) :
    readHeaderLoop (f + 1) (clLine n ++ '\r' :: '\n' :: s) cl
      = readHeaderLoop f s (Int.ofNat n) := by
  simp only [readHeaderLoop, readLine_line_crlf s (newline_not_mem_clLine n)]
  have htr : trimSpace (clLine n ++ ['\r', '\n']) = clLine n := by
    rw [trimSpace_append_crlf, trimSpace_clLine]
  simp only [htr]
  have hne : clLine n ≠ [] := by rw [clLine_cons]; simp
  simp only [hne, if_false]
  have hsplit : splitOnceHdr (clLine n) = some ("Content-Length".data, natToChars n) :=
    splitOnceHdr_clPrefix (natToChars n)
  simp [hsplit, atoi_natToChars]

theorem headerJoin_append (xs ys : List (List Char)) :
    headerJoin (xs ++ ys) = headerJoin xs ++ headerJoin ys := by
  simp [headerJoin]

theorem headerJoin_length (lines : List (List Char)) :
    2 * lines.length ≤ (headerJoin lines).length := by
  induction lines with
  | nil => simp [headerJoin]
  | cons l ls ih =>
    simp only [headerJoin, List.map_cons, List.flatten_cons, List.length_append,
      List.length_cons] at ih ⊢
    omega

theorem readHeaderLoop_benignList {lines : List (List Char)}
    (hb : ∀ l ∈ lines, BenignHeaderLine l) (f : Nat) (s : List Char) (cl : Int) :
    readHeaderLoop (f + lines.length) (headerJoin lines ++ s) cl
      = readHeaderLoop f s cl := by
  induction lines generalizing s with
  | nil => simp [headerJoin]
  | cons l ls ih =>
    have hstream : headerJoin (l :: ls) ++ s = l ++ '\r' :: '\n' :: (headerJoin ls ++ s) := by
      simp [headerJoin]
    rw [hstream, List.length_cons, show f + (ls.length + 1) = (f + ls.length) + 1 from rfl,
      readHeaderLoop_benign (hb l (List.mem_cons_self l ls)) (f + ls.length)]
    exact ih (fun x hx => hb x (List.mem_cons_of_mem l hx)) s

theorem readHeaderLoop_headerSection (pre post : List (List Char)) (n : Nat)
    (tail : List Char) (hpre : ∀ l ∈ pre, BenignHeaderLine l)
    (hpost : ∀ l ∈ post, BenignHeaderLine l) :
    readHeaderLoop ((headerSection (pre ++ [clLine n] ++ post) ++ tail).length + 1)
      (headerSection (pre ++ [clLine n] ++ post) ++ tail) 0 = .ok (Int.ofNat n, tail) := by
  have hstream : headerSection (pre ++ [clLine n] ++ post) ++ tail
      = headerJoin pre ++ (clLine n ++ '\r' :: '\n' ::
          (headerJoin post ++ ('\r' :: '\n' :: tail))) := by
    simp [headerSection, headerJoin_append, headerJoin, List.append_assoc]
  have hlen : pre.length + post.length + 2
      ≤ (headerSection (pre ++ [clLine n] ++ post) ++ tail).length := by
    have h1 := headerJoin_length (pre ++ [clLine n] ++ post)
    simp only [headerSection, List.length_append, List.length_cons] at h1 ⊢
    simp only [List.length_append, List.length_cons, List.length_nil] at h1
    omega
  obtain ⟨f4, hf⟩ : ∃ f4, (headerSection (pre ++ [clLine n] ++ post) ++ tail).length + 1
      = (((f4 + 1) + post.length) + 1) + pre.length :=
    ⟨(headerSection (pre ++ [clLine n] ++ post) ++ tail).length - pre.length - post.length - 1,
      by omega⟩
  rw [hf, hstream]
  rw [readHeaderLoop_benignList hpre (((f4 + 1) + post.length) + 1)]
  rw [readHeaderLoop_clLine n ((f4 + 1) + post.length)]
  rw [readHeaderLoop_benignList hpost (f4 + 1)]
  exact readHeaderLoop_crlf f4 _ _

theorem readHeaderLoop_headerSection_benign {lines : List (List Char)}
    (tail : List Char) (hb : ∀ l ∈ lines, BenignHeaderLine l) :
    readHeaderLoop ((headerSection lines ++ tail).length + 1)
      (headerSection lines ++ tail) 0 = .ok (0, tail) := by
  have hstream : headerSection lines ++ tail
      = headerJoin lines ++ ('\r' :: '\n' :: tail) := by
    simp [headerSection, List.append_assoc]
  have hlen : lines.length + 1 ≤ (headerSection lines ++ tail).length + 1 := by
    have h1 := headerJoin_length lines
    simp only [headerSection, List.length_append, List.length_cons]
    omega
  obtain ⟨f4, hf⟩ : ∃ f4, (headerSection lines ++ tail).length + 1
      = (f4 + 1) + lines.length :=
    ⟨(headerSection lines ++ tail).length - lines.length, by omega⟩
  rw [hf, hstream, readHeaderLoop_benignList hb (f4 + 1)]
  exact readHeaderLoop_crlf f4 _ _

theorem readMessage_extraHeaders (pre post : List (List Char)) (body rest : List Char)
    (hpre : ∀ l ∈ pre, BenignHeaderLine l) (hpost : ∀ l ∈ post, BenignHeaderLine l)
    (hbody : body ≠ []) :
    readMessage (headerSection (pre ++ [clLine body.length] ++ post) ++ body ++ rest)
      = .ok (body, rest) := by
  have hL : 0 < body.length := List.length_pos.mpr hbody
  have hloop := readHeaderLoop_headerSection pre post body.length (body ++ rest) hpre hpost
  rw [show headerSection (pre ++ [clLine body.length] ++ post) ++ body ++ rest
      = headerSection (pre ++ [clLine body.length] ++ post) ++ (body ++ rest) from by
    simp [List.append_assoc]]
  unfold readMessage
  rw [hloop]
  have h0 : ¬ (Int.ofNat body.length = 0) := by
    simp only [Int.ofNat_eq_natCast]
    omega
  have hneg : ¬ (Int.ofNat body.length < 0) := by
    simp only [Int.ofNat_eq_natCast]
    omega
  have htn : (Int.ofNat body.length).toNat = body.length := rfl
  simp only [h0, hneg, if_false, htn]
  have hgt : ¬ ((body ++ rest).length < body.length) := by
    simp [List.length_append]
  simp only [hgt, if_false]
  rw [List.take_left, List.drop_left]

theorem readMessage_writeMessage (body rest : List Char) (hbody : body ≠ []) :
    readMessage (writeMessage body ++ rest) = .ok (body, rest) := by
  have h := readMessage_extraHeaders [] [] body rest (by simp) (by simp) hbody
  have hs : writeMessage body ++ rest
      = headerSection ([] ++ [clLine body.length] ++ []) ++ body ++ rest := by
    simp [writeMessage, headerSection, headerJoin, clLine, List.append_assoc]
  rw [hs]
  exact h

theorem jsonMarshal_ne_nil (v : Json) : jsonMarshal v ≠ [] := by
  cases v with
  | null => decide
  | bool b => cases b <;> decide
  | num i =>
    simp only [jsonMarshal, intToChars]
    by_cases h : i < 0
    · simp [h]
    · simp only [h, if_false]
      exact natToChars_ne_nil _
  | str s => simp [jsonMarshal]
  | arr es => simp [jsonMarshal]
  | obj fs => simp [jsonMarshal]

theorem splitOnChar_ne_nil (sep : Char) (s : List Char) : splitOnChar sep s ≠ [] := by
  cases s with
  | nil => simp [splitOnChar]
  | cons c cs =>
    unfold splitOnChar
    by_cases h : c = sep
    · simp [h]
    · simp only [h, if_false]
      cases hr : splitOnChar sep cs <;> simp

theorem prefJoinNL_append (xs ys : List (List Char)) :
    prefJoinNL (xs ++ ys) = prefJoinNL xs ++ prefJoinNL ys := by
  simp [prefJoinNL]

theorem prefJoinNL_cons (l : List Char) (ls : List (List Char)) :
    prefJoinNL (l :: ls) = '\n' :: (l ++ prefJoinNL ls) := by
  simp [prefJoinNL]

theorem splitNL_join (s : List Char) : joinLinesNL (splitOnChar '\n' s) = s := by
  induction s with
  | nil => rfl
  | cons c cs ih =>
    cases hr : splitOnChar '\n' cs with
    | nil => exact absurd hr (splitOnChar_ne_nil _ _)
    | cons p ps =>
      rw [hr] at ih
      unfold splitOnChar
      by_cases h : c = '\n'
      · subst h
        simp only [if_true, hr]
        rw [joinLinesNL, prefJoinNL_cons]
        rw [joinLinesNL] at ih
        simp [ih]
      · simp only [h, if_false, hr]
        rw [joinLinesNL] at ih ⊢
        simp [ih]

theorem mem_splitOnChar {sep : Char} {s l : List Char} {c : Char}
    (hl : l ∈ splitOnChar sep s) (hc : c ∈ l) : c ∈ s := by
  induction s generalizing l with
  | nil =>
    simp [splitOnChar] at hl
    subst hl
    simp at hc
  | cons d ds ih =>
    unfold splitOnChar at hl
    by_cases h : d = sep
    · simp only [h, if_true] at hl
      rcases List.mem_cons.mp hl with rfl | hm
      · simp at hc
      · exact List.mem_cons_of_mem _ (ih hm hc)
    · simp only [h, if_false] at hl
      cases hr : splitOnChar sep ds with
      | nil => exact absurd hr (splitOnChar_ne_nil _ _)
      | cons p ps =>
        rw [hr] at hl
        rcases List.mem_cons.mp hl with rfl | hm
        · rcases List.mem_cons.mp hc with rfl | hm2
          · exact List.mem_cons_self _ _
          · exact List.mem_cons_of_mem _
              (ih (by rw [hr]; exact List.mem_cons_self p ps) hm2)
        · exact List.mem_cons_of_mem _
            (ih (by rw [hr]; exact List.mem_cons_of_mem p hm) hc)

theorem dropCR_of_no_cr {l : List Char} (h : '\r' ∉ l) : dropCR l = l := by
  unfold dropCR
  cases hg : l.getLast? with
  | none => simp
  | some c =>
    by_cases hc : c = '\r'
    · subst hc
      obtain ⟨ys, hys⟩ := List.getLast?_eq_some_iff.mp hg
      exact absurd (by rw [hys]; simp) h
    · simp [hc]

theorem map_dropCR_id {X : List (List Char)} (hX : ∀ l ∈ X, '\r' ∉ l) :
    X.map dropCR = X := by
  induction X with
  | nil => rfl
  | cons l ls ih =>
    rw [List.map_cons, dropCR_of_no_cr (hX l (List.mem_cons_self l ls)),
      ih (fun x hx => hX x (List.mem_cons_of_mem l hx))]

theorem scanLinesM_no_cr {content : List Char} (h : '\r' ∉ content) :
    scanLinesM content =
      (if (splitOnChar '\n' content).getLast? = some [] then
        (splitOnChar '\n' content).dropLast
      else splitOnChar '\n' content) := by
  have hlines : ∀ l ∈ splitOnChar '\n' content, '\r' ∉ l :=
    fun l hl hc => h (mem_splitOnChar hl hc)
  unfold scanLinesM rawLines
  by_cases hg : (splitOnChar '\n' content).getLast? = some []
  · simp only [hg, if_true]
    refine map_dropCR_id (fun l hl => hlines l ?_)
    exact List.dropLast_subset _ hl
  · simp only [hg, if_false]
    exact map_dropCR_id hlines

theorem readSourceLoop_after (lines : List (List Char)) (cur a b : Int)
    (first : Bool) (acc : List Char) (h : b < cur) :
    readSourceLoop lines cur a b first acc = acc := by
  cases lines with
  | nil => rfl
  | cons l ls =>
    have h2 : (decide (a ≤ cur) && decide (cur ≤ b)) = false := by
      have : ¬ (cur ≤ b) := by omega
      simp [this]
    simp [readSourceLoop, h2, h]

theorem readSourceLoop_main (lines : List (List Char)) (cur a b : Int)
    (acc : List Char) (h1 : a ≤ cur) (h2 : cur ≤ b) :
    readSourceLoop lines cur a b false acc
      = acc ++ prefJoinNL (lines.take (b + 1 - cur).toNat) := by
  induction lines generalizing cur acc with
  | nil => simp [readSourceLoop, prefJoinNL]
  | cons l ls ih =>
    have hin : (decide (a ≤ cur) && decide (cur ≤ b)) = true := by simp [h1, h2]
    have hnb : ¬ (b < cur) := by omega
    rw [readSourceLoop]
    simp only [hin, if_true, hnb, if_false]
    rcases lt_or_eq_of_le h2 with hlt | heq
    · rw [ih (cur + 1) _ (by omega) (by omega)]
      have htake : (b + 1 - cur).toNat = (b + 1 - (cur + 1)).toNat + 1 := by omega
      rw [htake, List.take_succ_cons, prefJoinNL_cons]
      simp
    · subst heq
      rw [readSourceLoop_after ls (cur + 1) a cur false _ (by omega)]
      have htake : (cur + 1 - cur).toNat = 1 := by omega
      rw [htake, List.take_succ_cons, List.take_zero, prefJoinNL_cons]
      simp [prefJoinNL]

theorem readSourceLoop_first (l : List Char) (ls : List (List Char)) (a b : Int)
    (hab : a ≤ b) :
    readSourceLoop (l :: ls) a a b true []
      = l ++ prefJoinNL (ls.take (b - a).toNat) := by
  have hin : (decide (a ≤ a) && decide (a ≤ b)) = true := by simp [hab]
  have hnb : ¬ (b < a) := by omega
  rw [readSourceLoop]
  simp only [hin, if_true, hnb, if_false]
  rcases lt_or_eq_of_le hab with hlt | heq
  · rw [readSourceLoop_main ls (a + 1) a b _ (by omega) (by omega)]
    have : (b + 1 - (a + 1)).toNat = (b - a).toNat := by omega
    simp [this]
  · subst heq
    rw [readSourceLoop_after ls (a + 1) a a false _ (by omega)]
    simp [prefJoinNL]

theorem readSourceLoop_skip (lines : List (List Char)) (cur a b : Int)
    (hcur : cur < a) (hab : a ≤ b) :
    readSourceLoop lines cur a b true []
      = readSourceLoop (lines.drop (a - cur).toNat) a a b true [] := by
  induction lines generalizing cur with
  | nil => simp [readSourceLoop]
  | cons l ls ih =>
    have hin : (decide (a ≤ cur) && decide (cur ≤ b)) = false := by
      have : ¬ (a ≤ cur) := by omega
      simp [this]
    have hnb : ¬ (b < cur) := by omega
    rw [readSourceLoop]
    simp only [hin, if_false, hnb, Bool.false_eq_true, List.nil_append]
    rcases lt_or_eq_of_le (by omega : cur + 1 ≤ a) with hlt | heq
    · rw [ih (cur + 1) hlt]
      have : (a - cur).toNat = (a - (cur + 1)).toNat + 1 := by omega
      rw [this, List.drop_succ_cons]
    · rw [heq]
      have : (a - cur).toNat = 1 := by omega
      rw [this, List.drop_succ_cons, List.drop_zero]

theorem joinLinesNL_append (xs ys : List (List Char)) (hxs : xs ≠ []) :
    joinLinesNL (xs ++ ys) = joinLinesNL xs ++ prefJoinNL ys := by
  cases xs with
  | nil => exact absurd rfl hxs
  | cons x xs =>
    simp only [List.cons_append, joinLinesNL, prefJoinNL_append, List.append_assoc]

theorem prefJoinNL_eq_cons_joinLinesNL (m : List Char) (ms : List (List Char)) :
    prefJoinNL (m :: ms) = '\n' :: joinLinesNL (m :: ms) := by
  rw [prefJoinNL_cons, joinLinesNL]

theorem splitOnChar_vs_scanLinesM {content : List Char} (hcr : '\r' ∉ content) :
    splitOnChar '\n' content = scanLinesM content ∨
    splitOnChar '\n' content = scanLinesM content ++ [[]] := by
  rw [scanLinesM_no_cr hcr]
  by_cases hg : (splitOnChar '\n' content).getLast? = some []
  · right
    obtain ⟨ys, hys⟩ := List.getLast?_eq_some_iff.mp hg
    simp only [hg, if_true]
    conv_lhs => rw [hys]
    rw [hys, List.dropLast_concat]
  · left
    simp [hg]

theorem readSourceLoopE_ok {lines : List (List Char)}
    (h : ∀ l ∈ lines, l.length < maxScanTokenSize) (cur ls le : Int) (first : Bool)
    (acc : List Char) :
    readSourceLoopE lines cur ls le first acc
      = .ok (readSourceLoop (lines.map dropCR) cur ls le first acc) := by
  induction lines generalizing cur first acc with
  | nil => rfl
  | cons l rest ih =>
    have hl : ¬ (maxScanTokenSize ≤ l.length) := by
      have := h l (List.mem_cons_self l rest)
      omega
    simp only [readSourceLoopE, List.map_cons, readSourceLoop, hl, if_false]
    by_cases hbreak : le < cur
    · simp [hbreak]
    · simp only [hbreak, if_false]
      exact ih (fun x hx => h x (List.mem_cons_of_mem l hx)) _ _ _

theorem readSourceLoopE_errs_on_long_line (rest : List (List Char)) (ls le : Int) :
    readSourceLoopE (List.replicate maxScanTokenSize 'x' :: rest) 1 ls le true []
      = .error "bufio.Scanner: token too long".data := by
  have hlen : maxScanTokenSize ≤ (List.replicate maxScanTokenSize 'x').length := by
    rw [List.length_replicate]
  simp [readSourceLoopE, hlen]

theorem readSourceM_slice (content : List Char) (a b : Nat) (hcr : '\r' ∉ content)
    (hlen : ∀ l ∈ rawLines content, l.length < maxScanTokenSize)
    (ha : 1 ≤ a) (hab : a ≤ b) (hb : b ≤ (scanLinesM content).length) :
    readSourceM content (a : Int) (b : Int) = .ok (sourceSlice content a b) := by
  have hab2 : (a : Int) ≤ (b : Int) := by omega
  -- no scanned segment reaches the limit, so the loop is the limit-free core
  have hE : readSourceM content (a : Int) (b : Int)
      = .ok (readSourceLoop (scanLinesM content) 1 a b true []) := by
    unfold readSourceM
    rw [readSourceLoopE_ok hlen]
    rfl
  -- the loop runs over the scanner's lines
  have hstep1 : readSourceLoop (scanLinesM content) 1 (a : Int) (b : Int) true []
      = readSourceLoop ((scanLinesM content).drop (a - 1)) a a b true [] := by
    rcases lt_or_eq_of_le ha with h1 | h1
    · rw [readSourceLoop_skip _ 1 _ _ (by omega) hab2]
      have hcast : ((a : Int) - 1).toNat = a - 1 := by omega
      rw [hcast]
    · rw [← h1]
      norm_num
  obtain ⟨l, ls, hD⟩ : ∃ l ls, (scanLinesM content).drop (a - 1) = l :: ls := by
    cases hD : (scanLinesM content).drop (a - 1) with
    | nil =>
      exfalso
      have h2 := congrArg List.length hD
      rw [List.length_drop, List.length_nil] at h2
      omega
    | cons l ls => exact ⟨l, ls, rfl⟩
  have hloop : readSourceLoop (scanLinesM content) 1 (a : Int) (b : Int) true []
      = l ++ prefJoinNL (ls.take (b - a)) := by
    rw [hstep1, hD, readSourceLoop_first l ls _ _ hab2]
    have hcast : ((b : Int) - (a : Int)).toNat = b - a := by omega
    rw [hcast]
  -- the slice over the raw split agrees with the slice over the scanner lines
  have hslice : sourceSlice content a b
      = joinLinesNL (((scanLinesM content).drop (a - 1)).take (b - a + 1)) := by
    unfold sourceSlice
    rcases splitOnChar_vs_scanLinesM hcr with hP | hP
    · rw [hP]
    · rw [hP, List.drop_append_of_le_length (by omega),
        List.take_append_of_le_length (by rw [List.length_drop]; omega)]
  rw [hE, hloop, hslice, hD, show b - a + 1 = (b - a) + 1 from rfl, List.take_succ_cons,
    joinLinesNL]

theorem sourceSlice_isSubstring (content : List Char) (a b : Nat)
    (ha : 1 ≤ a) (hab : a ≤ b) (hb : b ≤ (splitOnChar '\n' content).length) :
    ∃ pre suf, content = pre ++ sourceSlice content a b ++ suf := by
  set P := splitOnChar '\n' content with hPdef
  set T := P.take (a - 1) with hTdef
  set M1 := (P.drop (a - 1)).take (b - a + 1) with hM1def
  set M2 := (P.drop (a - 1)).drop (b - a + 1) with hM2def
  have hsplit : P = T ++ (M1 ++ M2) := by
    rw [hTdef, hM1def, hM2def, List.take_append_drop, List.take_append_drop]
  have hcontent : content = joinLinesNL (T ++ (M1 ++ M2)) := by
    rw [← hsplit, hPdef, splitNL_join]
  obtain ⟨m, ms, hM1⟩ : ∃ m ms, M1 = m :: ms := by
    cases hx : M1 with
    | nil =>
      exfalso
      have := congrArg List.length hx
      rw [hM1def, List.length_take, List.length_drop] at this
      simp at this
      omega
    | cons m ms => exact ⟨m, ms, rfl⟩
  have hslice : sourceSlice content a b = joinLinesNL M1 := rfl
  cases hT : T with
  | nil =>
    refine ⟨[], prefJoinNL M2, ?_⟩
    rw [hslice]
    conv_lhs => rw [hcontent]
    rw [hT, List.nil_append, joinLinesNL_append _ _ (by rw [hM1]; simp)]
    simp
  | cons t ts =>
    refine ⟨joinLinesNL T ++ ['\n'], prefJoinNL M2, ?_⟩
    rw [hslice]
    conv_lhs => rw [hcontent]
    rw [joinLinesNL_append _ _ (by rw [hT]; simp), prefJoinNL_append, hM1,
      prefJoinNL_eq_cons_joinLinesNL, ← hM1]
    simp

theorem lookupStr_all_empty (cs : List (List Char × List Char))
    (h : ∀ kv ∈ cs, kv.2 = []) (p : List Char) : (lookupStr p cs).getD [] = [] := by
  induction cs with
  | nil => rfl
  | cons kv rest ih =>
    unfold lookupStr
    by_cases hk : kv.1 = p
    · simp [hk, h kv (List.mem_cons_self kv rest)]
    · simp only [hk, if_false]
      exact ih (fun x hx => h x (List.mem_cons_of_mem kv hx))

/-! ## Claim theorems -/

/-- C2: framing round-trip — for every JSON value `v`, reading back a message
written by `WriteMessage` returns exactly the bytes of `v`'s JSON
serialization together with the untouched remainder of the stream, and `N`
values written in order to one stream are returned by `N` consecutive
`ReadMessage` calls in the same order. -/
theorem C2_framing_roundtrip :
    (∀ (v : Json) (rest : List Char),
      readMessage (writeMessage (jsonMarshal v) ++ rest) = .ok (jsonMarshal v, rest)) ∧
    (∀ vs : List Json,
      readMessages vs.length ((vs.map (fun v => writeMessage (jsonMarshal v))).flatten)
        = .ok (vs.map jsonMarshal)) := by
  have single : ∀ (v : Json) (rest : List Char),
      readMessage (writeMessage (jsonMarshal v) ++ rest) = .ok (jsonMarshal v, rest) :=
    fun v rest => readMessage_writeMessage _ _ (jsonMarshal_ne_nil v)
  refine ⟨single, ?_⟩
  intro vs
  induction vs with
  | nil => rfl
  | cons v vs ih =>
    simp only [List.map_cons, List.flatten_cons, List.length_cons, readMessages,
      single v ((vs.map (fun v => writeMessage (jsonMarshal v))).flatten), ih]

/-- C5: `ReadMessage` fails on a header section with no `Content-Length` line,
on a zero `Content-Length`, on malformed input (a non-numeric
`Content-Length` value; a header section cut off before its terminator), and
on a body shorter than `Content-Length`; and it succeeds, ignoring them, on a
well-formed message carrying arbitrary additional header lines before and
after the `Content-Length` line. -/
theorem C5_readMessage_error_cases :
    (∀ (lines : List (List Char)) (rest : List Char), (∀ l ∈ lines, BenignHeaderLine l) →
      readMessage (headerSection lines ++ rest)
        = .error "missing or zero Content-Length".data) ∧
    (∀ rest : List Char,
      readMessage (headerSection [clLine 0] ++ rest)
        = .error "missing or zero Content-Length".data) ∧
    (readMessage "Content-Length: abc\r\n\r\nbody".data
        = .error "invalid Content-Length".data ∧
      readMessage "Content-Length: 5".data = .error "EOF".data) ∧
    (∀ (n : Nat) (body : List Char), 0 < n → body.length < n →
      readMessage (headerSection [clLine n] ++ body) = .error "failed to read body".data) ∧
    (∀ (pre post : List (List Char)) (body rest : List Char),
      (∀ l ∈ pre, BenignHeaderLine l) → (∀ l ∈ post, BenignHeaderLine l) → body ≠ [] →
      readMessage (headerSection (pre ++ [clLine body.length] ++ post) ++ body ++ rest)
        = .ok (body, rest)) := by
  refine ⟨?_, ?_, ⟨rfl, rfl⟩, ?_, readMessage_extraHeaders⟩
  · intro lines rest hb
    unfold readMessage
    rw [readHeaderLoop_headerSection_benign rest hb]
    rfl
  · intro rest
    have h := readHeaderLoop_headerSection [] [] 0 rest (by simp) (by simp)
    rw [show ([] : List (List Char)) ++ [clLine 0] ++ [] = [clLine 0] from by simp] at h
    unfold readMessage
    rw [h]
    rfl
  · intro n body hn hlt
    have h := readHeaderLoop_headerSection [] [] n body (by simp) (by simp)
    rw [show ([] : List (List Char)) ++ [clLine n] ++ [] = [clLine n] from by simp] at h
    unfold readMessage
    rw [h]
    have h0 : ¬ (Int.ofNat n = 0) := by
      simp only [Int.ofNat_eq_natCast]
      omega
    have hneg : ¬ (Int.ofNat n < 0) := by
      simp only [Int.ofNat_eq_natCast]
      omega
    have htn : (Int.ofNat n).toNat = n := rfl
    simp only [h0, hneg, if_false, htn, hlt, if_true]

/-- C5 witness: concrete instances of each quantified clause. -/
theorem C5_readMessage_error_cases_witness :
    BenignHeaderLine "X-Request-Id: 42".data ∧
    readMessage (headerSection ["X-Request-Id: 42".data] ++ "junk".data)
      = .error "missing or zero Content-Length".data ∧
    readMessage (headerSection [clLine 5] ++ "abc".data)
      = .error "failed to read body".data ∧
    readMessage (headerSection (["X-Request-Id: 42".data] ++ [clLine "hi".data.length]
        ++ ["Host: x".data]) ++ "hi".data ++ "rest".data)
      = .ok ("hi".data, "rest".data) :=
  ⟨by decide,
   C5_readMessage_error_cases.1 ["X-Request-Id: 42".data] "junk".data (by decide),
   C5_readMessage_error_cases.2.2.2.1 5 "abc".data (by decide) (by decide),
   C5_readMessage_error_cases.2.2.2.2 ["X-Request-Id: 42".data] ["Host: x".data]
     "hi".data "rest".data (by decide) (by decide) (by decide)⟩

/-- C1: the claim says a concurrent `index` call is rejected with "already in
progress" and performs no store mutation, for every interleaving.  This
evaluates the handler's check-then-act prologue at the interleaving in which
both calls execute the `RLock`-guarded status read (part_002 lines 46–48)
before either executes `setIndexStatus(InProgress)` (line 62): both calls pass
the check, neither is rejected, and both reach `BulkUpsertNodes` (line 81), so
two runs are simultaneously in progress and both mutate the store. -/
theorem C1_index_race_both_mutate :
    (runRace [false, true, false, false, false, true, true, true]).mutated = [0, 1] ∧
    (runRace [false, true, false, false, false, true, true, true]).rejected = [] := by
  decide

/-- C3 counterexample: `GenerateNodeID` is not injective on (file path, symbol
name) pairs — the separator `':'` may occur in a file path, so the pairs
`("a:b", "c")` and `("a", "b:c")` feed the identical string `"a:b:c"` to
SHA-256 and receive the same node ID. -/
theorem C3_not_injective_counterexample :
    GenerateNodeID "a:b".data "c".data = GenerateNodeID "a".data "b:c".data ∧
    ("a:b".data, "c".data) ≠ ("a".data, "b:c".data) := by
  constructor
  · unfold GenerateNodeID
    have h : hashInput "a:b".data "c".data = hashInput "a".data "b:c".data := by decide
    rw [h]
  · decide

/-- C3 (amended): `GenerateNodeID` is deterministic — it is a pure function of
(file path, symbol name), so two independent computations at the same pair
agree — and the pair-to-hash-input map `path ++ ":" ++ name` is injective on
pairs whose file path contains no `':'`, so within that class distinct pairs
produce distinct SHA-256 inputs. -/
theorem C3_deterministic_and_colonfree_injective :
    (∀ p n : List Char, GenerateNodeID p n = GenerateNodeID p n) ∧
    (∀ p1 n1 p2 n2 : List Char, ':' ∉ p1 → ':' ∉ p2 →
      hashInput p1 n1 = hashInput p2 n2 → p1 = p2 ∧ n1 = n2) := by
  refine ⟨fun _ _ => rfl, ?_⟩
  intro p1 n1 p2 n2 h1 h2 h
  induction p1 generalizing p2 with
  | nil =>
    cases p2 with
    | nil =>
      simp only [hashInput, List.nil_append, List.cons.injEq] at h
      exact ⟨rfl, h.2⟩
    | cons c cs =>
      simp only [hashInput, List.nil_append, List.cons_append, List.cons.injEq] at h
      obtain ⟨hc, -⟩ := h
      subst hc
      exact absurd (List.mem_cons_self _ _) h2
  | cons c1 cs1 ih =>
    cases p2 with
    | nil =>
      simp only [hashInput, List.nil_append, List.cons_append, List.cons.injEq] at h
      obtain ⟨hc, -⟩ := h
      subst hc
      exact absurd (List.mem_cons_self _ _) h1
    | cons c2 cs2 =>
      simp only [hashInput, List.cons_append, List.cons.injEq] at h
      obtain ⟨rfl, htail⟩ := h
      have h1' : ':' ∉ cs1 := fun hm => h1 (List.mem_cons_of_mem _ hm)
      have h2' : ':' ∉ cs2 := fun hm => h2 (List.mem_cons_of_mem _ hm)
      obtain ⟨he, hn⟩ := ih cs2 h1' h2' (by simpa [hashInput] using htail)
      exact ⟨by rw [he], hn⟩

/-- C3 witness for the amended theorem at a concrete colon-free pair. -/
theorem C3_colonfree_injective_witness :
    (':' ∉ "a".data) ∧ ("a".data = "a".data ∧ "b".data = "b".data) :=
  ⟨by decide, C3_deterministic_and_colonfree_injective.2 "a".data "b".data "a".data "b".data
    (by decide) (by decide) rfl⟩

/-- C6 counterexample: for a file with CRLF line endings, `readSource` does not
return the exact substring of the file.  In `"a\r\nb"` lines 1–2 are the whole
file, yet `readSource` returns `"a\nb"`: `bufio.ScanLines` strips the `'\r'`
before each newline, so the file's bytes are not preserved. -/
theorem C6_crlf_counterexample :
    readSourceM "a\r\nb".data 1 2 = .ok "a\nb".data ∧
    (scanLinesM "a\r\nb".data).length = 2 ∧
    readSourceM "a\r\nb".data 1 2 ≠ .ok "a\r\nb".data := by
  refine ⟨rfl, rfl, fun h => ?_⟩
  have h0 : readSourceM "a\r\nb".data 1 2 = Except.ok "a\nb".data := rfl
  rw [h0] at h
  exact absurd (Except.ok.inj h) (by decide)

/-- C6 (amended): for every file content with LF line endings (no `'\r'`)
whose lines are all under `bufio.MaxScanTokenSize` (64 KiB, above which the
scanner fails with `ErrTooLong` and `readSource` returns an error instead of
a string), and every line range `1 ≤ line_start ≤ line_end ≤` the number of
scanned lines, `readSource` returns exactly the substring of the file from
`line_start` to `line_end` inclusive — the `'\n'`-joined slice of the file's
lines, which occurs verbatim inside the content (internal newlines preserved;
the range's trailing newline excluded). -/
theorem C6_with_source_exact_substring (content : List Char) (a b : Nat)
    (hcr : '\r' ∉ content) (hlen : ∀ l ∈ rawLines content, l.length < maxScanTokenSize)
    (ha : 1 ≤ a) (hab : a ≤ b) (hb : b ≤ (scanLinesM content).length) :
    readSourceM content (a : Int) (b : Int) = .ok (sourceSlice content a b) ∧
    ∃ pre suf, content = pre ++ sourceSlice content a b ++ suf := by
  refine ⟨readSourceM_slice content a b hcr hlen ha hab hb, ?_⟩
  apply sourceSlice_isSubstring content a b ha hab
  rcases splitOnChar_vs_scanLinesM hcr with hP | hP
  · rw [hP]
    exact hb
  · rw [hP, List.length_append]
    simp only [List.length_cons, List.length_nil]
    omega

/-- C6 witness at a concrete three-line LF file, lines 2–3. -/
theorem C6_with_source_exact_substring_witness :
    readSourceM "ab\ncd\nef".data ((2 : Nat) : Int) ((3 : Nat) : Int)
      = .ok (sourceSlice "ab\ncd\nef".data 2 3) ∧
    ∃ pre suf, "ab\ncd\nef".data = pre ++ sourceSlice "ab\ncd\nef".data 2 3 ++ suf :=
  C6_with_source_exact_substring "ab\ncd\nef".data 2 3 (by decide) (by decide) (by decide)
    (by decide) (by decide)

/-- C4: every query tool passes a 30-second budget to the readiness wait; when
the wait fails while the status is in-progress (and no prior run failed) the
handler replies "Indexing in progress, please try again" without querying the
store, and when a previous index run failed it replies with the stored error,
again without querying the store.  `WaitForIndex`/`GetIndexStatus` are
modelled from the spec (readiness latch); the handlers themselves are from
src. -/
theorem C4_query_tools_readiness :
    queryWaitTimeoutSeconds = 30 ∧
    (∀ st : ServerIndexState, st.readyLatched = false → st.lastErr = none →
      st.status = .inProgress →
      getSymbolsInFileTool st = .earlyError "Indexing in progress, please try again".data ∧
      findImpactTool st = .earlyError "Indexing in progress, please try again".data ∧
      getSymbolTool st = .earlyError "Indexing in progress, please try again".data) ∧
    (∀ (st : ServerIndexState) (e : List Char), st.readyLatched = false → st.lastErr = some e →
      getSymbolsInFileTool st = .earlyError ("Indexing failed: ".data ++ e) ∧
      findImpactTool st = .earlyError ("Indexing failed: ".data ++ e) ∧
      getSymbolTool st = .earlyError ("Indexing failed: ".data ++ e)) := by
  refine ⟨rfl, ?_, ?_⟩ <;> intros <;>
    simp_all [getSymbolsInFileTool, findImpactTool, getSymbolTool, queryToolPrologue,
      waitForIndexM]

/-- C4 witness at two concrete index states. -/
theorem C4_query_tools_readiness_witness :
    (getSymbolsInFileTool { status := .inProgress, lastErr := none, readyLatched := false } =
      .earlyError "Indexing in progress, please try again".data) ∧
    (getSymbolTool
        { status := .failed, lastErr := some "scan failed: boom".data, readyLatched := false } =
      .earlyError ("Indexing failed: ".data ++ "scan failed: boom".data)) :=
  ⟨(C4_query_tools_readiness.2.1 _ rfl rfl rfl).1,
   (C4_query_tools_readiness.2.2 _ _ rfl rfl).2.2⟩

/-- C7: when scan, node upsert, enrichment and edge upsert all succeed but
`PruneStaleFiles` fails, the `index` run still finishes with status ready and
the normal "Indexed N nodes and M edges" summary; the prune error is only
logged as a warning. -/
theorem C7_prune_error_does_not_fail_index
    (env : PipelineEnv) (nodes : List (List Char))
    (edges : List (List Char × List Char)) (e : List Char)
    (hscan : env.scanRes = .ok nodes) (hup : env.upsertNodesRes = .ok ())
    (hprune : env.pruneRes = .error e) (henr : env.enrichRes = .ok edges)
    (hedge : env.upsertEdgesRes = .ok ()) :
    indexToolRun env =
      (.ready, indexSummary nodes.length edges.length env.durationStr,
        ["Warning: Failed to prune stale files: ".data ++ e]) := by
  simp [indexToolRun, hscan, hup, hprune, henr, hedge]

/-- C7 witness at a concrete environment whose prune step fails. -/
theorem C7_prune_error_does_not_fail_index_witness :
    indexToolRun
      { scanRes := .ok ["/w/a.go".data], upsertNodesRes := .ok (),
        pruneRes := .error "disk error".data, enrichRes := .ok [],
        upsertEdgesRes := .ok (), durationStr := "0.10".data } =
      (.ready, indexSummary 1 0 "0.10".data,
        ["Warning: Failed to prune stale files: ".data ++ "disk error".data]) :=
  C7_prune_error_does_not_fail_index _ ["/w/a.go".data] [] "disk error".data rfl rfl rfl rfl rfl

/-- C8 counterexample: the claim predicts backoff sleeps of 1 s before attempt
2 and 4 s before attempt 3, but `downloadFile` computes `attempt*attempt` with
the retry's own attempt number, so a download whose three attempts all fail
sleeps 4 s before attempt 2 and 9 s before attempt 3. -/
theorem C8_backoff_counterexample :
    downloadFileRun (fun _ => .failure "connection refused".data) (fun _ => false) =
      ([(2, 4), (3, 9)], .failedAfter 3 "connection refused".data) ∧
    ([(2, 4), (3, 9)] : List (Nat × Nat)) ≠ [(2, 1), (3, 4)] := by
  decide

/-- C8 (amended): the download makes at most 3 attempts, sleeping `attempt²`
seconds before each retry (4 s before attempt 2, 9 s before attempt 3); after
the third failure it surfaces an error wrapping the last attempt's error, and
a context cancelled during a backoff is returned immediately without sleeping
or retrying. -/
theorem C8_download_retry (f : Nat → AttemptOutcome) (c : Nat → Bool) (e1 e2 e3 : List Char) :
    (f 1 = .failure e1 → f 2 = .failure e2 → f 3 = .failure e3 → (∀ k, c k = false) →
      downloadFileRun f c = ([(2, 4), (3, 9)], .failedAfter 3 e3)) ∧
    (f 1 = .failure e1 → c 2 = true → downloadFileRun f c = ([], .ctxCanceled)) := by
  constructor
  · intro h1 h2 h3 hc
    simp [downloadFileRun, downloadLoop, maxRetries, h1, h2, h3, hc]
  · intro h1 hc
    simp [downloadFileRun, downloadLoop, maxRetries, h1, hc]

/-- C8 witness: a run with three failing attempts, and one cancelled during
the first backoff. -/
theorem C8_download_retry_witness :
    downloadFileRun (fun _ => .failure "E".data) (fun _ => false) =
      ([(2, 4), (3, 9)], .failedAfter 3 "E".data) ∧
    downloadFileRun (fun _ => .failure "E".data) (fun k => k == 2) = ([], .ctxCanceled) :=
  ⟨(C8_download_retry _ _ "E".data "E".data "E".data).1 rfl rfl rfl (fun _ => rfl),
   (C8_download_retry _ _ "E".data "E".data "E".data).2 rfl rfl⟩

/-- C9: on non-Windows platforms, for every absolute, cleaned path `p`,
`PathToURI` returns `"file://" ++ p` and `URIToPath` inverts it exactly. -/
theorem C9_uri_roundtrip (cwd p : List Char) (habs : isAbsM p = true)
    (hclean : cleanPath p = p) :
    pathToURIM cwd p = "file://".data ++ p ∧ uriToPathM (pathToURIM cwd p) = p := by
  have h1 : pathToURIM cwd p = "file://".data ++ p := by
    simp [pathToURIM, absPath, habs, hclean]
  refine ⟨h1, ?_⟩
  rw [h1]
  have hpre : hasPrefixM "file://".data ("file://".data ++ p) = true := hasPrefixM_append _ _
  simp only [uriToPathM, hpre, if_true]
  rfl

/-- C9 witness at the concrete path `/a/b`. -/
theorem C9_uri_roundtrip_witness :
    pathToURIM "/w".data "/a/b".data = "file://".data ++ "/a/b".data ∧
    uriToPathM (pathToURIM "/w".data "/a/b".data) = "/a/b".data :=
  C9_uri_roundtrip "/w".data "/a/b".data (by decide) (by decide)

/-- C10: checksum verification during install runs exactly when the platform's
configured checksum is non-empty, and every checksum entry of every language
in the shipped metadata table is the empty string, so every shipped install
proceeds without a checksum check (for any platform key, present or not). -/
theorem C10_checksum_skipped_when_empty :
    (∀ (m : LSPServerMetadataM) (p : List Char),
      checksumFor m p = [] → checksumVerificationRuns m p = false) ∧
    (∀ (lang : List Char) (m : LSPServerMetadataM) (p : List Char),
      lookupStr lang lspMetadataM = some m → checksumVerificationRuns m p = false) := by
  constructor
  · intro m p h
    simp [checksumVerificationRuns, h]
  · intro lang m p h
    have hempty : ∀ kv ∈ m.checksums, kv.2 = ([] : List Char) := by
      simp only [lspMetadataM, lookupStr] at h
      split_ifs at h <;>
        · obtain rfl : _ = m := Option.some.inj h
          decide
    simp [checksumVerificationRuns, checksumFor, lookupStr_all_empty _ hempty]

/-- C10 witness: the shipped Go entry on linux-amd64 installs without a
checksum check. -/
theorem C10_checksum_skipped_when_empty_witness :
    lookupStr "go".data lspMetadataM = some goMetadataM ∧
    checksumVerificationRuns goMetadataM "linux-amd64".data = false :=
  ⟨by decide, C10_checksum_skipped_when_empty.2 "go".data goMetadataM "linux-amd64".data
    (by decide)⟩

end Codefinder
